import Mathlib

/-!
Verification of the midGPT training engine (`src/src/train.py` and the
root-level `train.py`) against its specification.  The Python code is
shallowly embedded: pytrees become an inductive tree of array leaves,
optax gradient transformations become explicit state-passing functions,
and the gradient-accumulation scan becomes a list fold.  Exact rational
or real arithmetic stands in for floating point, matching the spec's
"within floating tolerance" idealization.
-/

/-! ## Gradient accumulation (src/src/train.py, `loss_fn` and `step`)

A microbatch is a list of atomic loss cells (one per `(sequence, position)`
pair); `loss_fn` returns the mean of the per-cell losses, and reverse-mode
differentiation of that mean is the mean of the per-cell gradients
(linearity of the derivative; the model forward/backward is the opaque
external collaborator).  `step` scans over the `G` microbatches summing
loss and gradient, then divides both by `G`. -/

/-- Mean per-cell loss over one (micro)batch, as computed by
`loss.mean()` in `loss_fn`.  `cellLoss` is the per-cell loss of the opaque
differentiable model. -/
def batch_loss {E : Type} (cellLoss : E → ℚ) (xs : List E) : ℚ :=
  (xs.map cellLoss).sum / xs.length

/-- Gradient of `batch_loss` with respect to the parameter coordinates `ι`:
by linearity of differentiation it is the mean of the per-cell gradients
`cellGrad`. -/
def batch_grad {E ι : Type} (cellGrad : E → ι → ℚ) (xs : List E) : ι → ℚ :=
  fun i => (xs.map (fun e => cellGrad e i)).sum / xs.length

/-- One iteration of the `accum_loss_grad` scan body in `step`: add the
microbatch loss to the running loss and the microbatch gradient to the
running gradient, leaf by leaf. -/
def accum_loss_grad {E ι : Type} (cellLoss : E → ℚ) (cellGrad : E → ι → ℚ)
    (acc : ℚ × (ι → ℚ)) (xs : List E) : ℚ × (ι → ℚ) :=
  (acc.1 + batch_loss cellLoss xs, fun i => batch_grad cellGrad xs i + acc.2 i)

/-- The accumulated loss and gradient of `step`: scan `accum_loss_grad`
over the `G` microbatch slices starting from zero, then divide both
results by `G` (the number of slices). -/
def step_loss_grad {E ι : Type} (cellLoss : E → ℚ) (cellGrad : E → ι → ℚ)
    (slices : List (List E)) : ℚ × (ι → ℚ) :=
  let r := slices.foldl (accum_loss_grad cellLoss cellGrad) (0, fun _ => 0)
  (r.1 / slices.length, fun i => r.2 i / slices.length)

lemma foldl_accum_loss_grad {E ι : Type} (cellLoss : E → ℚ) (cellGrad : E → ι → ℚ)
    (slices : List (List E)) (l0 : ℚ) (g0 : ι → ℚ) :
    slices.foldl (accum_loss_grad cellLoss cellGrad) (l0, g0) =
      (l0 + (slices.map (batch_loss cellLoss)).sum,
       fun i => g0 i + (slices.map (fun xs => batch_grad cellGrad xs i)).sum) := by
  induction slices generalizing l0 g0 with
  | nil => simp
  | cons xs rest ih =>
    simp only [List.foldl_cons, List.map_cons, List.sum_cons, accum_loss_grad, ih]
    refine Prod.ext (by ring) ?_
    funext i
    ring

lemma sum_map_div {α : Type} (l : List α) (f : α → ℚ) (b : ℚ) :
    (l.map (fun a => f a / b)).sum = (l.map f).sum / b := by
  induction l with
  | nil => simp
  | cons a rest ih => simp [ih, add_div]

lemma flatten_length_eq {E : Type} (slices : List (List E)) (B : ℕ)
    (hlen : ∀ xs ∈ slices, xs.length = B) :
    slices.flatten.length = slices.length * B := by
  induction slices with
  | nil => simp
  | cons xs rest ih =>
    simp only [List.flatten_cons, List.length_append, List.length_cons]
    rw [hlen xs (by simp), ih (fun t ht => hlen t (by simp [ht]))]
    ring

lemma mean_of_means {E : Type} (h : E → ℚ) (slices : List (List E)) (B : ℕ)
    (hlen : ∀ xs ∈ slices, xs.length = B) :
    (slices.map (batch_loss h)).sum / slices.length = batch_loss h slices.flatten := by
  have h1 : slices.map (batch_loss h) =
      slices.map (fun xs => (xs.map h).sum / (B : ℚ)) := by
    apply List.map_congr_left
    intro xs hxs
    unfold batch_loss
    rw [hlen xs hxs]
  have h2 : (slices.flatten.map h).sum =
      (slices.map (fun xs => (xs.map h).sum)).sum := by
    rw [List.map_flatten, List.sum_flatten, List.map_map]
    rfl
  rw [h1, sum_map_div]
  unfold batch_loss
  rw [h2, flatten_length_eq slices B hlen]
  push_cast
  ring

/-- C1: For every gradient-accumulation factor `G ≥ 1` and every
microbatched input consisting of `G` slices of `B` cells each, the
training step's accumulated result (loss and gradient summed elementwise
over the `G` sequential microbatch slices, then both divided by `G`)
equals the loss and gradient computed from the full concatenated batch of
size `G × B` in a single pass (exact arithmetic standing in for floating
tolerance); for `G = 1` this degenerates to ordinary single-batch
gradient computation. -/
theorem grad_accum_equiv {E ι : Type} (cellLoss : E → ℚ) (cellGrad : E → ι → ℚ)
    (slices : List (List E)) (B : ℕ) (hG : 1 ≤ slices.length) (hB : 0 < B)
    (hlen : ∀ xs ∈ slices, xs.length = B) :
    step_loss_grad cellLoss cellGrad slices =
      (batch_loss cellLoss slices.flatten, batch_grad cellGrad slices.flatten) ∧
    (∀ xs : List E, step_loss_grad cellLoss cellGrad [xs] =
      (batch_loss cellLoss xs, batch_grad cellGrad xs)) := by
  constructor
  · unfold step_loss_grad
    rw [foldl_accum_loss_grad]
    refine Prod.ext ?_ ?_
    · show (0 + (slices.map (batch_loss cellLoss)).sum) / (slices.length : ℚ) = _
      rw [zero_add, mean_of_means cellLoss slices B hlen]
    · show (fun i => ((fun _ => (0 : ℚ)) i + _) / (slices.length : ℚ)) = _
      funext i
      show (0 + (slices.map (fun xs => batch_grad cellGrad xs i)).sum) /
          (slices.length : ℚ) = batch_grad cellGrad slices.flatten i
      rw [zero_add]
      exact mean_of_means (fun e => cellGrad e i) slices B hlen
  · intro xs
    unfold step_loss_grad
    rw [foldl_accum_loss_grad]
    refine Prod.ext (by simp) ?_
    funext i
    simp

/-- Witness for C1 at a concrete input: two slices of one cell each over
the identity cell loss and a one-coordinate gradient. -/
theorem grad_accum_equiv_witness :
    (1 ≤ ([[(0 : ℚ)], [2]] : List (List ℚ)).length) ∧
    step_loss_grad id (fun e (_ : Unit) => e) [[(0 : ℚ)], [2]] =
      (batch_loss id ([[(0 : ℚ)], [2]] : List (List ℚ)).flatten,
       batch_grad (fun e (_ : Unit) => e) ([[(0 : ℚ)], [2]] : List (List ℚ)).flatten) :=
  ⟨by decide,
   (grad_accum_equiv id (fun e (_ : Unit) => e) [[(0 : ℚ)], [2]] 1 (by decide)
     (by decide) (by decide)).1⟩

/-! ## Learning-rate schedule (src/src/train.py line 169 and train.py line 99)

Both scripts build `optax.warmup_cosine_decay_schedule(0, learning_rate,
warmup_steps, lr_decay_steps, end_value=min_lr)`.  The optax combinators
are embedded over the reals: `polynomial_schedule` with power 1 for the
linear warmup, `cosine_decay_schedule` with exponent 1, and
`join_schedules` at the warmup boundary. -/

/-- optax `linear_schedule` (a `polynomial_schedule` with power 1):
the count is clipped to `[0, transition_steps]` and the value interpolates
from `init_value` to `end_value`. -/
noncomputable def linear_schedule (init_value end_value : ℝ)
    (transition_steps : ℕ) (count : ℕ) : ℝ :=
  let c : ℕ := min count transition_steps
  (init_value - end_value) * (1 - (c : ℝ) / (transition_steps : ℝ)) + end_value

/-- optax `cosine_decay_schedule` with exponent 1: the count is clipped to
`decay_steps` and the value follows a half cosine from `init_value` down
to `alpha * init_value`. -/
noncomputable def cosine_decay_schedule (init_value : ℝ) (decay_steps : ℕ)
    (alpha : ℝ) (count : ℕ) : ℝ :=
  let c : ℕ := min count decay_steps
  let cosine_decay := (1 + Real.cos (Real.pi * (c : ℝ) / (decay_steps : ℝ))) / 2
  init_value * ((1 - alpha) * cosine_decay + alpha)

/-- optax `join_schedules` of two schedules at one boundary: counts below
the boundary use the first schedule, later counts use the second schedule
shifted by the boundary. -/
noncomputable def join_schedules (s1 s2 : ℕ → ℝ) (boundary : ℕ) (count : ℕ) : ℝ :=
  if count < boundary then s1 count else s2 (count - boundary)

/-- optax `warmup_cosine_decay_schedule(init, peak, warmup_steps,
decay_steps, end_value)`: linear warmup joined at `warmup_steps` with a
cosine decay over `decay_steps - warmup_steps` steps whose floor ratio is
`end_value / peak`. -/
noncomputable def warmup_cosine_decay_schedule (init_value peak_value : ℝ)
    (warmup_steps decay_steps : ℕ) (end_value : ℝ) : ℕ → ℝ :=
  join_schedules
    (linear_schedule init_value peak_value warmup_steps)
    (cosine_decay_schedule peak_value (decay_steps - warmup_steps)
      (end_value / peak_value))
    warmup_steps

/-- The scheduler built by `train` from the experiment configuration:
`optax.warmup_cosine_decay_schedule(0, config.learning_rate,
config.warmup_steps, config.lr_decay_steps, end_value=config.min_lr)`. -/
noncomputable def scheduler (learning_rate : ℝ) (warmup_steps : ℕ)
    (lr_decay_steps : ℕ) (min_lr : ℝ) : ℕ → ℝ :=
  warmup_cosine_decay_schedule 0 learning_rate warmup_steps lr_decay_steps min_lr

lemma linear_schedule_zero_init (peak : ℝ) (W : ℕ) (hW : 0 < W) :
    linear_schedule 0 peak W 0 = 0 := by
  unfold linear_schedule
  simp

lemma cosine_decay_at_zero (peak : ℝ) (D : ℕ) (alpha : ℝ) :
    cosine_decay_schedule peak D alpha 0 = peak := by
  unfold cosine_decay_schedule
  simp [Real.cos_zero]

lemma cosine_decay_at_end (peak : ℝ) (D : ℕ) (alpha : ℝ) (hD : 0 < D)
    (c : ℕ) (hc : D ≤ c) :
    cosine_decay_schedule peak D alpha c = peak * alpha := by
  unfold cosine_decay_schedule
  simp only [min_eq_right hc]
  rw [mul_div_assoc, div_self (by exact_mod_cast hD.ne'), mul_one, Real.cos_pi]
  ring

lemma linear_warmup_mono (peak : ℝ) (W : ℕ) (hpeak : 0 ≤ peak) (hW : 0 < W)
    {a b : ℕ} (hab : a ≤ b) :
    linear_schedule 0 peak W a ≤ linear_schedule 0 peak W b := by
  unfold linear_schedule
  simp only
  have hWpos : (0:ℝ) < W := by exact_mod_cast hW
  have hca : ((min a W : ℕ):ℝ) ≤ ((min b W : ℕ):ℝ) := by
    exact_mod_cast min_le_min hab le_rfl
  have key : ((min a W : ℕ):ℝ) / W ≤ ((min b W : ℕ):ℝ) / W :=
    (div_le_div_right hWpos).mpr hca
  nlinarith [key, hpeak]

lemma linear_le_peak (peak : ℝ) (W : ℕ) (hpeak : 0 ≤ peak) (hW : 0 < W) (c : ℕ) :
    linear_schedule 0 peak W c ≤ peak := by
  unfold linear_schedule
  simp only
  have hWpos : (0:ℝ) < W := by exact_mod_cast hW
  have hle : ((min c W : ℕ):ℝ) / W ≤ 1 := by
    rw [div_le_one hWpos]
    exact_mod_cast min_le_right c W
  nlinarith [hle, hpeak]

lemma cosine_decay_antitone (peak : ℝ) (D : ℕ) (alpha : ℝ) (hpeak : 0 ≤ peak)
    (halpha : alpha ≤ 1) (hD : 0 < D) {a b : ℕ} (hab : a ≤ b) :
    cosine_decay_schedule peak D alpha b ≤ cosine_decay_schedule peak D alpha a := by
  unfold cosine_decay_schedule
  simp only
  have hDpos : (0:ℝ) < D := by exact_mod_cast hD
  have hca : ((min a D : ℕ):ℝ) ≤ ((min b D : ℕ):ℝ) := by
    exact_mod_cast min_le_min hab le_rfl
  have hca0 : (0:ℝ) ≤ ((min a D : ℕ):ℝ) := by positivity
  have hcbD : ((min b D : ℕ):ℝ) ≤ D := by exact_mod_cast min_le_right b D
  have h0a : (0:ℝ) ≤ Real.pi * ((min a D : ℕ):ℝ) / D := by positivity
  have hbpi : Real.pi * ((min b D : ℕ):ℝ) / D ≤ Real.pi := by
    rw [div_le_iff hDpos]
    nlinarith [Real.pi_pos]
  have hmono : Real.pi * ((min a D : ℕ):ℝ) / D ≤ Real.pi * ((min b D : ℕ):ℝ) / D := by
    apply (div_le_div_iff_of_pos_right hDpos).mpr
    nlinarith [Real.pi_pos]
  have hcos := Real.cos_le_cos_of_nonneg_of_le_pi h0a hbpi hmono
  have key : 0 ≤ peak * (1 - alpha) *
      (Real.cos (Real.pi * ((min a D : ℕ):ℝ) / D) -
       Real.cos (Real.pi * ((min b D : ℕ):ℝ) / D)) :=
    mul_nonneg (mul_nonneg hpeak (by linarith)) (by linarith)
  nlinarith [key]

/-- C2: The learning-rate schedule returns 0 at step 0, the configured
peak learning rate at step `warmup_steps`, and the configured minimum at
step `warmup_steps + lr_decay_steps` (holding at the minimum for all
later steps); it is monotonically non-decreasing on `[0, warmup_steps]`
and monotonically non-increasing during the decay phase. -/
theorem scheduler_correct (peak min_lr : ℝ) (W Dc : ℕ)
    (hW : 0 < W) (hWD : W < Dc) (hpeak : 0 < peak)
    (hmin0 : 0 ≤ min_lr) (hminp : min_lr ≤ peak) :
    scheduler peak W Dc min_lr 0 = 0 ∧
    scheduler peak W Dc min_lr W = peak ∧
    scheduler peak W Dc min_lr (W + Dc) = min_lr ∧
    (∀ s, W + Dc ≤ s → scheduler peak W Dc min_lr s = min_lr) ∧
    (∀ a b, a ≤ b → b ≤ W →
      scheduler peak W Dc min_lr a ≤ scheduler peak W Dc min_lr b) ∧
    (∀ a b, W ≤ a → a ≤ b →
      scheduler peak W Dc min_lr b ≤ scheduler peak W Dc min_lr a) := by
  have hold : ∀ s, W + Dc ≤ s → scheduler peak W Dc min_lr s = min_lr := by
    intro s hs
    unfold scheduler warmup_cosine_decay_schedule join_schedules
    rw [if_neg (by omega : ¬ s < W)]
    rw [cosine_decay_at_end peak (Dc - W) _ (by omega) (s - W) (by omega)]
    rw [mul_comm, div_mul_cancel₀ _ hpeak.ne']
  refine ⟨?_, ?_, hold (W + Dc) le_rfl, hold, ?_, ?_⟩
  · unfold scheduler warmup_cosine_decay_schedule join_schedules
    rw [if_pos hW]
    exact linear_schedule_zero_init peak W hW
  · unfold scheduler warmup_cosine_decay_schedule join_schedules
    rw [if_neg (lt_irrefl W), Nat.sub_self]
    exact cosine_decay_at_zero peak (Dc - W) _
  · intro a b hab hbW
    unfold scheduler warmup_cosine_decay_schedule join_schedules
    by_cases hb : b < W
    · rw [if_pos (lt_of_le_of_lt hab hb), if_pos hb]
      exact linear_warmup_mono peak W hpeak.le hW hab
    · have hbW2 : b = W := le_antisymm hbW (not_lt.mp hb)
      rw [if_neg hb, hbW2, Nat.sub_self, cosine_decay_at_zero]
      by_cases ha : a < W
      · rw [if_pos ha]
        exact linear_le_peak peak W hpeak.le hW a
      · have haW : a = W := le_antisymm (hbW2 ▸ hab) (not_lt.mp ha)
        rw [if_neg ha, haW, Nat.sub_self, cosine_decay_at_zero]
  · intro a b hWa hab
    unfold scheduler warmup_cosine_decay_schedule join_schedules
    rw [if_neg (by omega : ¬ a < W), if_neg (by omega : ¬ b < W)]
    exact cosine_decay_antitone peak (Dc - W) _ hpeak.le
      ((div_le_one hpeak).mpr hminp) (by omega) (Nat.sub_le_sub_right hab W)

/-- Witness for C2 at a concrete configuration: peak 1, warmup 2 steps,
decay horizon 5 steps, minimum 1/2. -/
theorem scheduler_correct_witness :
    (0 < 2 ∧ 2 < 5 ∧ (0:ℝ) < 1 ∧ (0:ℝ) ≤ 1/2 ∧ (1:ℝ)/2 ≤ 1) ∧
    (scheduler 1 2 5 (1/2) 0 = 0 ∧
     scheduler 1 2 5 (1/2) 2 = 1 ∧
     scheduler 1 2 5 (1/2) 7 = 1/2 ∧
     (∀ s, 7 ≤ s → scheduler 1 2 5 (1/2) s = 1/2) ∧
     (∀ a b, a ≤ b → b ≤ 2 →
       scheduler 1 2 5 (1/2) a ≤ scheduler 1 2 5 (1/2) b) ∧
     (∀ a b, 2 ≤ a → a ≤ b →
       scheduler 1 2 5 (1/2) b ≤ scheduler 1 2 5 (1/2) a)) :=
  ⟨⟨by norm_num, by norm_num, by norm_num, by norm_num, by norm_num⟩,
   scheduler_correct 1 (1/2) 2 5 (by norm_num) (by norm_num) (by norm_num)
     (by norm_num) (by norm_num)⟩

/-! ## Model pytrees and the sharding manager (src/src/train.py,
`get_layers`, `shard_gpt`)

A model is a pytree whose array leaves either live directly in the tree
or inside one of the equinox layer modules that `shard_gpt` targets:
`eqx.nn.Linear` (weight plus optional bias), the custom `Embedding`
(weight), and `eqx.nn.LayerNorm` (weight plus optional bias).  An array
carries its payload and an optional sharding produced by
`jax.lax.with_sharding_constraint`. -/

/-- A `jax.sharding.NamedSharding`: a device-mesh axis list together with
a `PartitionSpec`, one optional mesh-axis name per array dimension. -/
structure NamedShardingE where
  mesh : List String
  spec : List (Option String)
deriving DecidableEq, Repr

/-- An array leaf of the model pytree: a payload plus the sharding
attached by the latest `with_sharding_constraint`, if any. -/
structure Arr where
  data : List ℚ
  sharding : Option NamedShardingE := none
deriving DecidableEq, Repr

instance : Inhabited Arr := ⟨⟨[], none⟩⟩

/-- `jax.lax.with_sharding_constraint`: the value is unchanged and the
given sharding is attached. -/
def with_sharding_constraint (w : Arr) (s : NamedShardingE) : Arr :=
  { w with sharding := some s }

/-- The model pytree.  Array leaves appear bare (`leaf`) or inside the
layer modules that `get_layers` can match; interior structure is binary
`node` nesting with `empty` for leafless static subtrees. -/
inductive MTree where
  | leaf : Arr → MTree
  | linear : Arr → Option Arr → MTree
  | embedding : Arr → MTree
  | layernorm : Arr → Option Arr → MTree
  | node : MTree → MTree → MTree
  | empty : MTree
deriving DecidableEq, Repr

/-- `jtu.tree_leaves` restricted to array leaves: every `Arr` in the
tree in depth-first order, including layer weights and biases. -/
def tree_leaves : MTree → List Arr
  | .leaf a => [a]
  | .linear w b => w :: b.toList
  | .embedding w => [w]
  | .layernorm w b => w :: b.toList
  | .node l r => tree_leaves l ++ tree_leaves r
  | .empty => []

/-- `get_lin_wts` in `shard_gpt`: the weights of all
`(eqx.nn.Linear, Embedding)` layers found by `get_layers`, in tree
order. -/
def get_lin_wts : MTree → List Arr
  | .linear w _ => [w]
  | .embedding w => [w]
  | .node l r => get_lin_wts l ++ get_lin_wts r
  | _ => []

/-- `get_ln_wts` in `shard_gpt`: the weights of all `eqx.nn.LayerNorm`
layers found by `get_layers`, in tree order. -/
def get_ln_wts : MTree → List Arr
  | .layernorm w _ => [w]
  | .node l r => get_ln_wts l ++ get_ln_wts r
  | _ => []

/-- `eqx.tree_at(get_lin_wts, model, sharded_lin_wts)` where the
replacement list is obtained by applying `f` to each selected weight:
replace every Linear/Embedding weight in place, leaving all other leaves
and the tree structure untouched. -/
def map_lin_wts (f : Arr → Arr) : MTree → MTree
  | .linear w b => .linear (f w) b
  | .embedding w => .embedding (f w)
  | .node l r => .node (map_lin_wts f l) (map_lin_wts f r)
  | t => t

/-- `eqx.tree_at(get_ln_wts, model, sharded_ln_wts)` in the same
per-selected-leaf form for LayerNorm weights. -/
def map_ln_wts (f : Arr → Arr) : MTree → MTree
  | .layernorm w b => .layernorm (f w) b
  | .node l r => .node (map_ln_wts f l) (map_ln_wts f r)
  | t => t

/-- The `NamedSharding` used for Linear/Embedding weights in `shard_gpt`:
`P(None, 'data')` when sharding, `P(None, None)` when replicating. -/
def lin_sharding_of (mesh : List String) (shard_model : Bool) : NamedShardingE :=
  if shard_model then ⟨mesh, [none, some "data"]⟩ else ⟨mesh, [none, none]⟩

/-- The `NamedSharding` used for LayerNorm weights: `P('data',)` when
sharding, `P(None,)` when replicating. -/
def ln_sharding_of (mesh : List String) (shard_model : Bool) : NamedShardingE :=
  if shard_model then ⟨mesh, [some "data"]⟩ else ⟨mesh, [none]⟩

/-- `shard_gpt(model, mesh, shard_model)`: build the Linear/Embedding and
LayerNorm shardings from the flag, constrain all matched weights, and
assert that every array leaf of the resulting tree was constrained.  The
failed `assert` is modelled as `Except.error`. -/
def shard_gpt (model : MTree) (mesh : List String) (shard_model : Bool) :
    Except String MTree :=
  let lin_sharding : NamedShardingE := lin_sharding_of mesh shard_model
  let ln_sharding : NamedShardingE := ln_sharding_of mesh shard_model
  let sharded_lin_wts := (get_lin_wts model).map
    (fun w => with_sharding_constraint w lin_sharding)
  let model1 := map_lin_wts (fun w => with_sharding_constraint w lin_sharding) model
  let sharded_ln_wts := (get_ln_wts model1).map
    (fun w => with_sharding_constraint w ln_sharding)
  let model2 := map_ln_wts (fun w => with_sharding_constraint w ln_sharding) model1
  let n_wts := (tree_leaves model2).length
  if n_wts = sharded_lin_wts.length + sharded_ln_wts.length then .ok model2
  else .error "Some parameters are not being sharded!"

/-- Array leaves of the tree that are neither a Linear/Embedding weight
nor a LayerNorm weight: bare array leaves and layer biases.  These are
exactly the leaves `shard_gpt` never assigns a placement to. -/
def count_unplaced : MTree → ℕ
  | .leaf _ => 1
  | .linear _ b => b.toList.length
  | .embedding _ => 0
  | .layernorm _ b => b.toList.length
  | .node l r => count_unplaced l + count_unplaced r
  | .empty => 0

/-- Whether the model contains a Linear or LayerNorm bias tensor. -/
def has_bias : MTree → Bool
  | .linear _ (some _) => true
  | .layernorm _ (some _) => true
  | .node l r => has_bias l || has_bias r
  | _ => false

lemma length_tree_leaves_map_lin (f : Arr → Arr) (m : MTree) :
    (tree_leaves (map_lin_wts f m)).length = (tree_leaves m).length := by
  induction m with
  | leaf a => rfl
  | linear w b => rfl
  | embedding w => rfl
  | layernorm w b => rfl
  | node l r ihl ihr => simp [tree_leaves, map_lin_wts, ihl, ihr]
  | empty => rfl

lemma length_tree_leaves_map_ln (f : Arr → Arr) (m : MTree) :
    (tree_leaves (map_ln_wts f m)).length = (tree_leaves m).length := by
  induction m with
  | leaf a => rfl
  | linear w b => rfl
  | embedding w => rfl
  | layernorm w b => rfl
  | node l r ihl ihr => simp [tree_leaves, map_ln_wts, ihl, ihr]
  | empty => rfl

lemma get_ln_wts_map_lin (f : Arr → Arr) (m : MTree) :
    get_ln_wts (map_lin_wts f m) = get_ln_wts m := by
  induction m with
  | leaf a => rfl
  | linear w b => rfl
  | embedding w => rfl
  | layernorm w b => rfl
  | node l r ihl ihr => simp [get_ln_wts, map_lin_wts, ihl, ihr]
  | empty => rfl

lemma get_lin_wts_map_ln (f : Arr → Arr) (m : MTree) :
    get_lin_wts (map_ln_wts f m) = get_lin_wts m := by
  induction m with
  | leaf a => rfl
  | linear w b => rfl
  | embedding w => rfl
  | layernorm w b => rfl
  | node l r ihl ihr => simp [get_lin_wts, map_ln_wts, ihl, ihr]
  | empty => rfl

lemma get_lin_wts_map_lin (f : Arr → Arr) (m : MTree) :
    get_lin_wts (map_lin_wts f m) = (get_lin_wts m).map f := by
  induction m with
  | leaf a => rfl
  | linear w b => rfl
  | embedding w => rfl
  | layernorm w b => rfl
  | node l r ihl ihr => simp [get_lin_wts, map_lin_wts, ihl, ihr]
  | empty => rfl

lemma get_ln_wts_map_ln (f : Arr → Arr) (m : MTree) :
    get_ln_wts (map_ln_wts f m) = (get_ln_wts m).map f := by
  induction m with
  | leaf a => rfl
  | linear w b => rfl
  | embedding w => rfl
  | layernorm w b => rfl
  | node l r ihl ihr => simp [get_ln_wts, map_ln_wts, ihl, ihr]
  | empty => rfl

lemma map_lin_wts_map_lin_wts (f g : Arr → Arr) (m : MTree) :
    map_lin_wts f (map_lin_wts g m) = map_lin_wts (fun w => f (g w)) m := by
  induction m with
  | leaf a => rfl
  | linear w b => rfl
  | embedding w => rfl
  | layernorm w b => rfl
  | node l r ihl ihr => simp [map_lin_wts, ihl, ihr]
  | empty => rfl

lemma map_ln_wts_map_ln_wts (f g : Arr → Arr) (m : MTree) :
    map_ln_wts f (map_ln_wts g m) = map_ln_wts (fun w => f (g w)) m := by
  induction m with
  | leaf a => rfl
  | linear w b => rfl
  | embedding w => rfl
  | layernorm w b => rfl
  | node l r ihl ihr => simp [map_ln_wts, ihl, ihr]
  | empty => rfl

lemma map_lin_wts_map_ln_wts (f g : Arr → Arr) (m : MTree) :
    map_lin_wts f (map_ln_wts g m) = map_ln_wts g (map_lin_wts f m) := by
  induction m with
  | leaf a => rfl
  | linear w b => rfl
  | embedding w => rfl
  | layernorm w b => rfl
  | node l r ihl ihr => simp [map_lin_wts, map_ln_wts, ihl, ihr]
  | empty => rfl

lemma leaves_count_decomp (m : MTree) :
    (tree_leaves m).length =
      (get_lin_wts m).length + (get_ln_wts m).length + count_unplaced m := by
  induction m with
  | leaf a => rfl
  | linear w b =>
    simp [tree_leaves, get_lin_wts, get_ln_wts, count_unplaced]
    omega
  | embedding w => rfl
  | layernorm w b =>
    simp [tree_leaves, get_lin_wts, get_ln_wts, count_unplaced]
    omega
  | node l r ihl ihr =>
    simp [tree_leaves, get_lin_wts, get_ln_wts, count_unplaced, ihl, ihr]
    omega
  | empty => rfl

lemma shard_gpt_eq_ite (model : MTree) (mesh : List String) (flag : Bool) :
    shard_gpt model mesh flag =
      if (tree_leaves model).length =
          (get_lin_wts model).length + (get_ln_wts model).length then
        .ok (map_ln_wts
              (fun w => with_sharding_constraint w (ln_sharding_of mesh flag))
              (map_lin_wts
                (fun w => with_sharding_constraint w (lin_sharding_of mesh flag))
                model))
      else .error "Some parameters are not being sharded!" := by
  unfold shard_gpt
  simp only [List.length_map, length_tree_leaves_map_ln, length_tree_leaves_map_lin,
    get_ln_wts_map_lin]

/-- C5: For every model tree passed to `shard_gpt`, the number of leaves
assigned an explicit placement (the Linear/Embedding weights plus the
LayerNorm weights) must equal the total count of array-valued leaves;
whenever these counts differ the function raises a fatal error, and
whenever they are equal it returns normally. -/
theorem shard_gpt_placement_check (model : MTree) (mesh : List String) (flag : Bool) :
    ((∃ e, shard_gpt model mesh flag = .error e) ↔
      (get_lin_wts model).length + (get_ln_wts model).length ≠
        (tree_leaves model).length) ∧
    ((∃ t, shard_gpt model mesh flag = .ok t) ↔
      (get_lin_wts model).length + (get_ln_wts model).length =
        (tree_leaves model).length) := by
  by_cases hc : (tree_leaves model).length =
      (get_lin_wts model).length + (get_ln_wts model).length
  · rw [shard_gpt_eq_ite, if_pos hc]
    constructor
    · simp only [reduceCtorEq, exists_false, false_iff, ne_eq, not_not]
      omega
    · simp only [Except.ok.injEq, exists_eq']
      constructor
      · intro _
        omega
      · intro _
        trivial
  · rw [shard_gpt_eq_ite, if_neg hc]
    constructor
    · simp only [Except.error.injEq, exists_eq']
      constructor
      · intro _
        omega
      · intro _
        trivial
    · simp only [reduceCtorEq, exists_false, false_iff]
      omega

lemma shard_maps_idem (f g : Arr → Arr) (hf : ∀ w, f (f w) = f w)
    (hg : ∀ w, g (g w) = g w) (m : MTree) :
    map_ln_wts g (map_lin_wts f (map_ln_wts g (map_lin_wts f m))) =
      map_ln_wts g (map_lin_wts f m) := by
  rw [map_lin_wts_map_ln_wts, map_lin_wts_map_lin_wts, map_ln_wts_map_ln_wts]
  simp only [hf, hg]

/-- C6: `shard_gpt` is idempotent: for every model tree, device mesh and
`shard_model` flag, applying it a second time to an already-placed tree
yields exactly the same tree and placement as applying it once. -/
theorem shard_gpt_idempotent (model : MTree) (mesh : List String) (flag : Bool) :
    (shard_gpt model mesh flag >>= fun t => shard_gpt t mesh flag) =
      shard_gpt model mesh flag ∧
    ∀ t, shard_gpt model mesh flag = .ok t → shard_gpt t mesh flag = .ok t := by
  have key : ∀ t, shard_gpt model mesh flag = .ok t →
      shard_gpt t mesh flag = .ok t := by
    intro t ht
    rw [shard_gpt_eq_ite] at ht
    by_cases hc : (tree_leaves model).length =
        (get_lin_wts model).length + (get_ln_wts model).length
    · rw [if_pos hc] at ht
      obtain rfl := (Except.ok.inj ht).symm
      rw [shard_gpt_eq_ite, if_pos (by
        rw [length_tree_leaves_map_ln, length_tree_leaves_map_lin,
          get_lin_wts_map_ln, get_lin_wts_map_lin, get_ln_wts_map_ln,
          get_ln_wts_map_lin, List.length_map, List.length_map]
        exact hc)]
      rw [shard_maps_idem
        (fun w => with_sharding_constraint w (lin_sharding_of mesh flag))
        (fun w => with_sharding_constraint w (ln_sharding_of mesh flag))
        (fun w => rfl) (fun w => rfl) model]
    · rw [if_neg hc] at ht
      cases ht
  refine ⟨?_, key⟩
  cases h : shard_gpt model mesh flag with
  | ok t => exact key t h
  | error e => rfl

lemma has_bias_pos_unplaced (m : MTree) :
    has_bias m = true → 0 < count_unplaced m := by
  induction m with
  | leaf a => intro h; cases h
  | linear w b =>
    cases b with
    | none => intro h; cases h
    | some bb => intro _; simp [count_unplaced]
  | embedding w => intro h; cases h
  | layernorm w b =>
    cases b with
    | none => intro h; cases h
    | some bb => intro _; simp [count_unplaced]
  | node l r ihl ihr =>
    intro h
    rcases Bool.or_eq_true_iff.mp h with h1 | h1
    · have := ihl h1
      simp only [count_unplaced]
      omega
    · have := ihr h1
      simp only [count_unplaced]
      omega
  | empty => intro h; cases h

/-- C10: For any model whose array leaves include a tensor that is
neither a Linear/Embedding weight nor a LayerNorm weight (in particular
any model containing bias tensors), the completeness assertion of
`shard_gpt` fails in both the sharded and replicated modes (the flag is
universally quantified); it returns normally exactly for models with no
such unplaced leaf. -/
theorem shard_gpt_requires_fully_placed (model : MTree) (mesh : List String)
    (flag : Bool) :
    ((∃ t, shard_gpt model mesh flag = .ok t) ↔ count_unplaced model = 0) ∧
    (0 < count_unplaced model → ∃ e, shard_gpt model mesh flag = .error e) ∧
    (has_bias model = true → ∃ e, shard_gpt model mesh flag = .error e) := by
  have hdec := leaves_count_decomp model
  have hok := (shard_gpt_placement_check model mesh flag).2
  have herr := (shard_gpt_placement_check model mesh flag).1
  have main : (∃ t, shard_gpt model mesh flag = .ok t) ↔
      count_unplaced model = 0 := by
    rw [hok]
    omega
  refine ⟨main, ?_, ?_⟩
  · intro hpos
    rw [herr]
    omega
  · intro hb
    have := has_bias_pos_unplaced model hb
    rw [herr]
    omega

/-- Witness for C6: a one-Linear model on a one-axis mesh in sharded
mode; the second application of `shard_gpt` leaves the sharded tree
unchanged. -/
theorem shard_gpt_idempotent_witness :
    (shard_gpt (.linear ⟨[1], none⟩ none) ["data"] true >>=
        fun t => shard_gpt t ["data"] true) =
      shard_gpt (.linear ⟨[1], none⟩ none) ["data"] true ∧
    shard_gpt (.linear ⟨[1], some ⟨["data"], [none, some "data"]⟩⟩ none)
        ["data"] true =
      .ok (.linear ⟨[1], some ⟨["data"], [none, some "data"]⟩⟩ none) :=
  ⟨(shard_gpt_idempotent (.linear ⟨[1], none⟩ none) ["data"] true).1,
   (shard_gpt_idempotent (.linear ⟨[1], none⟩ none) ["data"] true).2
     (.linear ⟨[1], some ⟨["data"], [none, some "data"]⟩⟩ none) (by rfl)⟩

/-- Witness for C10: a Linear layer with a bias tensor makes the
completeness assertion fail. -/
theorem shard_gpt_requires_fully_placed_witness :
    (0 < count_unplaced (.linear ⟨[1], none⟩ (some ⟨[2], none⟩)) ∧
      ∃ e, shard_gpt (.linear ⟨[1], none⟩ (some ⟨[2], none⟩)) ["data"] false =
        .error e) ∧
    (has_bias (.linear ⟨[1], none⟩ (some ⟨[2], none⟩)) = true ∧
      ∃ e, shard_gpt (.linear ⟨[1], none⟩ (some ⟨[2], none⟩)) ["data"] true =
        .error e) :=
  ⟨⟨by decide,
    (shard_gpt_requires_fully_placed (.linear ⟨[1], none⟩ (some ⟨[2], none⟩))
      ["data"] false).2.1 (by decide)⟩,
   ⟨by decide,
    (shard_gpt_requires_fully_placed (.linear ⟨[1], none⟩ (some ⟨[2], none⟩))
      ["data"] true).2.2 (by decide)⟩⟩

/-! ## Checkpoint save/restore and resumption (src/src/train.py,
`train`, lines 161-166 and 190-198, 215)

`mngr.save(itr, (jtu.tree_leaves(model), jtu.tree_leaves(opt_state)))`
persists the flattened leaf sequences of both trees keyed by step, with
`max_to_keep=1`.  On startup, `mngr.restore(mngr.latest_step())` returns
the two leaf sequences and `jtu.tree_unflatten(jtu.tree_structure(model),
leaves)` re-attaches them to the freshly initialized tree's structure. -/

/-- `jtu.tree_structure`: the shape of a model pytree with all array
leaves erased (layer bias presence is part of the structure). -/
inductive MShape where
  | leaf : MShape
  | linear : Bool → MShape
  | embedding : MShape
  | layernorm : Bool → MShape
  | node : MShape → MShape → MShape
  | empty : MShape
deriving DecidableEq, Repr

/-- The structure of a model tree: constructors with leaf payloads
erased. -/
def tree_structure : MTree → MShape
  | .leaf _ => .leaf
  | .linear _ b => .linear b.isSome
  | .embedding _ => .embedding
  | .layernorm _ b => .layernorm b.isSome
  | .node l r => .node (tree_structure l) (tree_structure r)
  | .empty => .empty

/-- Consume the next stored leaf (jax treedefs consume flattened leaves
in depth-first order; underflow yields a default leaf and is ruled out by
the structural-match hypothesis). -/
def take_leaf : List Arr → Arr × List Arr
  | [] => (default, [])
  | a :: rest => (a, rest)

/-- `jtu.tree_unflatten` worker: rebuild a tree of the given shape from
a flat leaf list, returning the unconsumed suffix. -/
def unflatten_aux : MShape → List Arr → MTree × List Arr
  | .leaf, l =>
    let (a, rest) := take_leaf l
    (.leaf a, rest)
  | .linear false, l =>
    let (w, rest) := take_leaf l
    (.linear w none, rest)
  | .linear true, l =>
    let (w, r1) := take_leaf l
    let (b, r2) := take_leaf r1
    (.linear w (some b), r2)
  | .embedding, l =>
    let (w, rest) := take_leaf l
    (.embedding w, rest)
  | .layernorm false, l =>
    let (w, rest) := take_leaf l
    (.layernorm w none, rest)
  | .layernorm true, l =>
    let (w, r1) := take_leaf l
    let (b, r2) := take_leaf r1
    (.layernorm w (some b), r2)
  | .node s1 s2, l =>
    let (t1, r1) := unflatten_aux s1 l
    let (t2, r2) := unflatten_aux s2 r1
    (.node t1 t2, r2)
  | .empty, l => (.empty, l)

/-- `jtu.tree_unflatten(treedef, leaves)`. -/
def tree_unflatten (s : MShape) (l : List Arr) : MTree :=
  (unflatten_aux s l).1

/-- The orbax `CheckpointManager` with `max_to_keep=1`: at most the most
recent snapshot, keyed by its step, holding the two flattened leaf
sequences (model, optimizer state). -/
structure CheckpointManager where
  latest : Option (ℕ × (List Arr × List Arr))
deriving DecidableEq, Repr

/-- `mngr.save(step, (model_leaves, opt_state_leaves))` with
`max_to_keep=1`: the new snapshot replaces any older one. -/
def CheckpointManager.save (_mngr : CheckpointManager) (step : ℕ)
    (payload : List Arr × List Arr) : CheckpointManager :=
  ⟨some (step, payload)⟩

/-- `mngr.latest_step()`. -/
def CheckpointManager.latest_step (mngr : CheckpointManager) : Option ℕ :=
  mngr.latest.map Prod.fst

/-- `mngr.restore(step)`: the stored leaf sequences for that step. -/
def CheckpointManager.restore (mngr : CheckpointManager) (step : ℕ) :
    Option (List Arr × List Arr) :=
  match mngr.latest with
  | some (s, payload) => if s = step then some payload else none
  | none => none

/-- Lines 191-195 of `train`: query the latest step, restore its leaf
sequences and unflatten both against the structure of the current
in-memory trees, resuming at `latest_step + 1`; with no checkpoint,
start at step 0 with the freshly initialized trees. -/
def train_startup (mngr : CheckpointManager) (freshM freshO : MTree) :
    ℕ × MTree × MTree :=
  match mngr.latest_step with
  | none => (0, freshM, freshO)
  | some s =>
    match mngr.restore s with
    | some (model_leaves, opt_state_leaves) =>
      (s + 1, tree_unflatten (tree_structure freshM) model_leaves,
        tree_unflatten (tree_structure freshO) opt_state_leaves)
    | none => (0, freshM, freshO)

lemma unflatten_aux_append (t : MTree) (rest : List Arr) :
    unflatten_aux (tree_structure t) (tree_leaves t ++ rest) = (t, rest) := by
  induction t generalizing rest with
  | leaf a => rfl
  | linear w b => cases b <;> rfl
  | embedding w => rfl
  | layernorm w b => cases b <;> rfl
  | node l r ihl ihr =>
    show unflatten_aux (.node _ _) ((tree_leaves l ++ tree_leaves r) ++ rest) = _
    rw [List.append_assoc]
    simp only [unflatten_aux, ihl (tree_leaves r ++ rest), ihr rest]
  | empty => rfl

lemma tree_unflatten_tree_leaves (t : MTree) :
    tree_unflatten (tree_structure t) (tree_leaves t) = t := by
  unfold tree_unflatten
  rw [← List.append_nil (tree_leaves t), unflatten_aux_append]

/-- C3: For every step `s` and model/optimizer trees `M`, `O`, restoring
the most recent checkpoint after `save(s, M, O)` yields leaf sequences
identical to those saved, and re-attaching them to the current in-memory
trees (any trees of the same structure) reproduces `M` and `O` exactly:
leaf values are overwritten, structure is unchanged. -/
theorem checkpoint_round_trip (mngr : CheckpointManager) (s : ℕ)
    (M O curM curO : MTree)
    (hM : tree_structure curM = tree_structure M)
    (hO : tree_structure curO = tree_structure O) :
    (mngr.save s (tree_leaves M, tree_leaves O)).latest_step = some s ∧
    (mngr.save s (tree_leaves M, tree_leaves O)).restore s =
      some (tree_leaves M, tree_leaves O) ∧
    tree_unflatten (tree_structure curM) (tree_leaves M) = M ∧
    tree_unflatten (tree_structure curO) (tree_leaves O) = O ∧
    tree_structure (tree_unflatten (tree_structure curM) (tree_leaves M)) =
      tree_structure curM := by
  have h3 : tree_unflatten (tree_structure curM) (tree_leaves M) = M := by
    rw [hM, tree_unflatten_tree_leaves]
  have h4 : tree_unflatten (tree_structure curO) (tree_leaves O) = O := by
    rw [hO, tree_unflatten_tree_leaves]
  refine ⟨rfl, by simp [CheckpointManager.save, CheckpointManager.restore],
    h3, h4, ?_⟩
  rw [h3, hM]

/-- Witness for C3: a one-embedding model and a one-leaf optimizer state
restored over current trees with the same structure but different leaf
values. -/
theorem checkpoint_round_trip_witness :
    (tree_structure (.embedding ⟨[7], none⟩) =
      tree_structure (.embedding ⟨[3], none⟩)) ∧
    ((CheckpointManager.mk none).save 5
        (tree_leaves (.embedding ⟨[3], none⟩), tree_leaves (.leaf ⟨[4], none⟩))
      |>.latest_step) = some 5 ∧
    tree_unflatten (tree_structure (.embedding ⟨[7], none⟩))
      (tree_leaves (.embedding ⟨[3], none⟩)) = .embedding ⟨[3], none⟩ :=
  ⟨by decide,
   (checkpoint_round_trip ⟨none⟩ 5 (.embedding ⟨[3], none⟩) (.leaf ⟨[4], none⟩)
     (.embedding ⟨[7], none⟩) (.leaf ⟨[0], none⟩) (by decide) (by decide)).1,
   (checkpoint_round_trip ⟨none⟩ 5 (.embedding ⟨[3], none⟩) (.leaf ⟨[4], none⟩)
     (.embedding ⟨[7], none⟩) (.leaf ⟨[0], none⟩) (by decide) (by decide)).2.2.1⟩

/-- C4: On startup, if at least one checkpoint exists the orchestrator
resumes at step `last_checkpointed_step + 1` with the restored model and
optimizer state; if no checkpoint exists it starts at step 0 with the
freshly initialized trees. -/
theorem train_resume_step (mngr : CheckpointManager) (freshM freshO : MTree) :
    (mngr.latest_step = none →
      train_startup mngr freshM freshO = (0, freshM, freshO)) ∧
    (∀ s (M O : MTree),
      mngr.latest = some (s, (tree_leaves M, tree_leaves O)) →
      tree_structure freshM = tree_structure M →
      tree_structure freshO = tree_structure O →
      train_startup mngr freshM freshO = (s + 1, M, O)) := by
  constructor
  · intro h
    unfold train_startup
    rw [h]
  · intro s M O hl hsm hso
    unfold train_startup
    have hls : mngr.latest_step = some s := by
      unfold CheckpointManager.latest_step
      rw [hl]
      rfl
    have hrs : mngr.restore s = some (tree_leaves M, tree_leaves O) := by
      unfold CheckpointManager.restore
      rw [hl]
      simp
    rw [hls]
    simp only [hrs]
    rw [hsm, tree_unflatten_tree_leaves, hso, tree_unflatten_tree_leaves]

/-- Witness for C4: an empty manager starts fresh at step 0; a manager
holding a step-5 snapshot resumes at step 6 with the restored trees. -/
theorem train_resume_step_witness :
    train_startup ⟨none⟩ (.leaf ⟨[1], none⟩) .empty =
      (0, .leaf ⟨[1], none⟩, .empty) ∧
    train_startup ⟨some (5, (tree_leaves (.leaf ⟨[2], none⟩), tree_leaves .empty))⟩
        (.leaf ⟨[9], none⟩) .empty = (6, .leaf ⟨[2], none⟩, .empty) :=
  ⟨(train_resume_step ⟨none⟩ (.leaf ⟨[1], none⟩) .empty).1 rfl,
   (train_resume_step ⟨some (5, (tree_leaves (.leaf ⟨[2], none⟩), tree_leaves .empty))⟩
     (.leaf ⟨[9], none⟩) .empty).2 5 (.leaf ⟨[2], none⟩) .empty rfl (by decide)
     (by decide)⟩

/-! ## Random-key stream and batch sampling (src/src/train.py,
`get_batch` lines 45-55 and `train` lines 181-187, 207-213)

The training loop threads a jax PRNG key from `jrandom.PRNGKey(0)`,
splitting off one sub-key per step for the training step.  Batch
sampling, however, calls `np.random.randint`, which draws from the
process-global numpy generator: that generator is never seeded from the
jax key (nor seeded at all), so it is modelled as an ambient entropy
stream that is an input of the run, separate from the seed. -/

/-- A jax threefry key, modelled as the original seed plus the path of
split decisions taken to derive it (distinct paths give distinct,
non-overlapping sub-keys). -/
structure PRNGKeyE where
  seed : ℕ
  path : List Bool
deriving DecidableEq, Repr

/-- `jrandom.PRNGKey(seed)`. -/
def PRNGKey (seed : ℕ) : PRNGKeyE := ⟨seed, []⟩

/-- `jrandom.split(key)` into two fresh sub-keys. -/
def jrandom_split (k : PRNGKeyE) : PRNGKeyE × PRNGKeyE :=
  (⟨k.seed, false :: k.path⟩, ⟨k.seed, true :: k.path⟩)

/-- The process-global numpy random generator: an entropy stream (seeded
by the OS at process start, not by the experiment seed) and a read
position. -/
structure NpRandomState where
  stream : ℕ → ℕ
  pos : ℕ

/-- One draw of `np.random.randint(lo, hi)` from the global generator. -/
def np_randint (lo hi : ℕ) (st : NpRandomState) : ℕ × NpRandomState :=
  (lo + st.stream st.pos % (hi - lo), ⟨st.stream, st.pos + 1⟩)

/-- `np.random.randint(lo, hi, size=(n,))`: `n` successive draws. -/
def np_randints (lo hi : ℕ) : ℕ → NpRandomState → List ℕ × NpRandomState
  | 0, st => ([], st)
  | n + 1, st =>
    let (v, st1) := np_randint lo hi st
    let (vs, st2) := np_randints lo hi n st1
    (v :: vs, st2)

/-- A contiguous token window `data[start : start + len]`. -/
def window (data : List ℕ) (start len : ℕ) : List ℕ :=
  (data.drop start).take len

/-- `get_batch(data, block_size, batch_size, g_accum_iters)`: draw
`batch_size * g_accum_iters` random offsets from the global numpy
generator, take the input windows and the one-shifted target windows,
and reshape both to `(g_accum_iters, batch_size, block_size)`. -/
def get_batch (data : List ℕ) (block_size batch_size g_accum_iters : ℕ)
    (st : NpRandomState) :
    (List (List (List ℕ)) × List (List (List ℕ))) × NpRandomState :=
  let bs := batch_size * g_accum_iters
  let (ix, st1) := np_randints 0 (data.length - block_size) bs st
  let x := ix.map (fun i => window data i block_size)
  let y := ix.map (fun i => window data (i + 1) block_size)
  let xr := (List.range g_accum_iters).map
    (fun gi => (x.drop (gi * batch_size)).take batch_size)
  let yr := (List.range g_accum_iters).map
    (fun gi => (y.drop (gi * batch_size)).take batch_size)
  ((xr, yr), st1)

/-- The per-step observable trajectory of the training loop before the
step function runs: the sampled microbatched `(x, y)` pair and the
sub-key handed to `step`, for each iteration in order (`train`, lines
207-213). -/
def run_batches (data : List ℕ) (block_size batch_size g_accum_iters : ℕ) :
    ℕ → PRNGKeyE → NpRandomState →
    List ((List (List (List ℕ)) × List (List (List ℕ))) × PRNGKeyE)
  | 0, _, _ => []
  | n + 1, key, st =>
    let ks := jrandom_split key
    let bs := get_batch data block_size batch_size g_accum_iters st
    (bs.1, ks.2) :: run_batches data block_size batch_size g_accum_iters n ks.1 bs.2

/-- The determinism property claimed for the training loop: the
trajectory is a function of the seed and the step sequence alone, for
any ambient state of the process-global numpy generator. -/
def seed_determines_trajectory : Prop :=
  ∀ (data : List ℕ) (block_size batch_size g_accum_iters n seed : ℕ)
    (np1 np2 : NpRandomState),
    run_batches data block_size batch_size g_accum_iters n (PRNGKey seed) np1 =
      run_batches data block_size batch_size g_accum_iters n (PRNGKey seed) np2

lemma run_batches_keys_independent (data : List ℕ)
    (block_size batch_size g_accum_iters : ℕ) :
    ∀ (n : ℕ) (key : PRNGKeyE) (np1 np2 : NpRandomState),
      (run_batches data block_size batch_size g_accum_iters n key np1).map
          Prod.snd =
        (run_batches data block_size batch_size g_accum_iters n key np2).map
          Prod.snd := by
  intro n
  induction n with
  | zero => intro key np1 np2; rfl
  | succ m ih =>
    intro key np1 np2
    simp only [run_batches, List.map_cons]
    rw [ih]

/-- C7 counterexample: two runs with the identical seed 0 and the
identical one-step sequence but different ambient numpy generator states
sample different batches, so the seed does not determine the
trajectory. -/
theorem np_batches_break_determinism : ¬ seed_determines_trajectory := fun h =>
  absurd
    (h [0, 1, 2, 3] 1 1 1 1 0 ⟨fun _ => 0, 0⟩ ⟨fun _ => 1, 0⟩)
    (by decide)

/-- C7 amended: identical seed and identical step sequence yield
bit-identical sub-keys at every consumption point regardless of the
numpy generator state; the full trajectory (batches included) is
bit-identical provided the ambient process-global numpy generator state
is also identical, since batch sampling draws from that generator rather
than from the seed-derived key stream. -/
theorem run_determinism_with_np_state (data : List ℕ)
    (block_size batch_size g_accum_iters n seed : ℕ)
    (np1 np2 : NpRandomState) :
    ((run_batches data block_size batch_size g_accum_iters n (PRNGKey seed)
        np1).map Prod.snd =
      (run_batches data block_size batch_size g_accum_iters n (PRNGKey seed)
        np2).map Prod.snd) ∧
    (np1 = np2 →
      run_batches data block_size batch_size g_accum_iters n (PRNGKey seed)
          np1 =
        run_batches data block_size batch_size g_accum_iters n (PRNGKey seed)
          np2) := by
  refine ⟨run_batches_keys_independent data block_size batch_size g_accum_iters
    n (PRNGKey seed) np1 np2, ?_⟩
  intro h
  rw [h]

/-- Witness for the amended C7 at a concrete run: one step over a
four-token dataset with equal numpy states. -/
theorem run_determinism_with_np_state_witness :
    ((run_batches [0, 1, 2, 3] 1 1 1 1 (PRNGKey 0) ⟨fun _ => 0, 0⟩).map
        Prod.snd =
      (run_batches [0, 1, 2, 3] 1 1 1 1 (PRNGKey 0) ⟨fun _ => 0, 0⟩).map
        Prod.snd) ∧
    run_batches [0, 1, 2, 3] 1 1 1 1 (PRNGKey 0) ⟨fun _ => 0, 0⟩ =
      run_batches [0, 1, 2, 3] 1 1 1 1 (PRNGKey 0) ⟨fun _ => 0, 0⟩ :=
  ⟨(run_determinism_with_np_state [0, 1, 2, 3] 1 1 1 1 0 ⟨fun _ => 0, 0⟩
      ⟨fun _ => 0, 0⟩).1,
   (run_determinism_with_np_state [0, 1, 2, 3] 1 1 1 1 0 ⟨fun _ => 0, 0⟩
      ⟨fun _ => 0, 0⟩).2 rfl⟩

/-! ## Mixed-precision loss computation (src/src/train.py, `loss_fn`
lines 62-70; train.py, `loss_fn` lines 61-66)

`loss_fn` records `orig_dtype = logits.dtype`, casts the logits to
`jnp.float32`, evaluates the cross entropy and its mean at that
precision, and casts the scalar result back to `orig_dtype`.  Arrays are
modelled as a dtype tag plus rational payloads; a cast quantizes each
value to the destination dtype's mantissa grid. -/

/-- The floating dtypes of the jmp policies in use. -/
inductive DType where
  | float16 | bfloat16 | float32 | float64
deriving DecidableEq, Repr

/-- Total bit width of a dtype. -/
def DType.bits : DType → ℕ
  | .float16 => 16
  | .bfloat16 => 16
  | .float32 => 32
  | .float64 => 64

/-- Explicit mantissa bits of a dtype, governing the quantization grid of
the precision model. -/
def DType.mantissaBits : DType → ℕ
  | .float16 => 10
  | .bfloat16 => 7
  | .float32 => 23
  | .float64 => 52

/-- Quantize a rational to the fixed-point grid of a dtype's mantissa: a
simple model of rounding to that precision. -/
def roundTo (d : DType) (q : ℚ) : ℚ :=
  (⌊q * 2 ^ d.mantissaBits⌋ : ℚ) / 2 ^ d.mantissaBits

/-- A dtype-tagged array of scalar values. -/
structure TArr where
  dtype : DType
  vals : List ℚ
deriving DecidableEq, Repr

/-- `x.astype(d)`: every value is re-quantized at the destination dtype. -/
def astype (a : TArr) (d : DType) : TArr :=
  ⟨d, a.vals.map (roundTo d)⟩

/-- `optax.softmax_cross_entropy_with_integer_labels(logits, y)`: one
per-position loss value computed at the dtype of the logits; `ce` is the
opaque per-position cross-entropy kernel of the external model
interface. -/
def softmax_cross_entropy_with_integer_labels (ce : ℚ → ℚ) (logits : TArr) :
    TArr :=
  ⟨logits.dtype, logits.vals.map (fun v => roundTo logits.dtype (ce v))⟩

/-- `loss.mean()`: the accumulation and division happen at the dtype of
the loss array. -/
def meanT (a : TArr) : TArr :=
  ⟨a.dtype, [roundTo a.dtype (a.vals.sum / a.vals.length)]⟩

/-- `loss_fn` of src/src/train.py: save `orig_dtype`, cast the logits to
float32, take the cross entropy and its mean there, and cast the scalar
back to `orig_dtype`. -/
def loss_fn (ce : ℚ → ℚ) (logits : TArr) : TArr :=
  let orig_dtype := logits.dtype
  let loss := softmax_cross_entropy_with_integer_labels ce
    (astype logits .float32)
  astype (meanT loss) orig_dtype

/-- C8: In `loss_fn` the scalar loss is always computed and accumulated
in at least 32-bit floating precision regardless of the compute dtype of
the logits (both the cross-entropy array and its mean live at exactly
`float32`), and the returned value is the mean loss cast back to the
logits' original compute dtype. -/
theorem loss_fn_precision (ce : ℚ → ℚ) (logits : TArr) :
    (softmax_cross_entropy_with_integer_labels ce
      (astype logits .float32)).dtype = .float32 ∧
    (meanT (softmax_cross_entropy_with_integer_labels ce
      (astype logits .float32))).dtype = .float32 ∧
    32 ≤ DType.bits (meanT (softmax_cross_entropy_with_integer_labels ce
      (astype logits .float32))).dtype ∧
    (loss_fn ce logits).dtype = logits.dtype ∧
    loss_fn ce logits =
      astype (meanT (softmax_cross_entropy_with_integer_labels ce
        (astype logits .float32))) logits.dtype := by
  refine ⟨rfl, rfl, le_refl 32, rfl, rfl⟩

/-! ## Optimizer chain (src/src/train.py lines 172-178; train.py lines
102-107)

The optax gradient transformations are embedded as explicit update
functions over a parameter vector `ι → ℝ` with their per-transform
states; `optax.chain` threads the updates left to right and pairs the
states.  src/src/train.py chains clipping, adam, decoupled weight decay,
schedule scaling and sign flip; the root-level train.py chains the same
transforms without the clipping stage. -/

/-- optax `global_norm`: the l2 norm over all leaves. -/
noncomputable def global_norm {ι : Type} [Fintype ι] (g : ι → ℝ) : ℝ :=
  Real.sqrt (∑ i, g i ^ 2)

/-- optax `clip_by_global_norm(max_norm)` update: leave the gradient
unchanged when its global norm is below the threshold, otherwise rescale
it to that norm. -/
noncomputable def clip_by_global_norm_update {ι : Type} [Fintype ι]
    (max_norm : ℝ) (g : ι → ℝ) : ι → ℝ :=
  fun i => if global_norm g < max_norm then g i
    else g i / global_norm g * max_norm

/-- optax `safe_int32_increment`: increment, saturating at the largest
int32. -/
def safe_int32_increment (c : ℕ) : ℕ :=
  if c < 2147483647 then c + 1 else c

/-- State of optax `scale_by_adam`: step count and first/second moment
estimates. -/
structure ScaleByAdamState (ι : Type) where
  count : ℕ
  mu : ι → ℝ
  nu : ι → ℝ

/-- optax `scale_by_adam(b1, b2, eps)` update: exponential moment
updates, bias correction by the incremented count, and the
`mu_hat / (sqrt(nu_hat) + eps)` step (`eps_root` is 0). -/
noncomputable def scale_by_adam_update {ι : Type} (b1 b2 eps : ℝ)
    (g : ι → ℝ) (st : ScaleByAdamState ι) : (ι → ℝ) × ScaleByAdamState ι :=
  let mu := fun i => b1 * st.mu i + (1 - b1) * g i
  let nu := fun i => b2 * st.nu i + (1 - b2) * g i ^ 2
  let count_inc := safe_int32_increment st.count
  let mu_hat := fun i => mu i / (1 - b1 ^ count_inc)
  let nu_hat := fun i => nu i / (1 - b2 ^ count_inc)
  (fun i => mu_hat i / (Real.sqrt (nu_hat i) + eps), ⟨count_inc, mu, nu⟩)

/-- An optax gradient transformation: an update function from (updates,
state, params) to (new updates, new state). -/
structure GradientTransformation (P S : Type) where
  update : P → S → P → P × S

/-- `optax.chain` of two transformations: apply the first, feed its
output updates to the second, pair the states. -/
def optax_chain2 {P S1 S2 : Type} (t1 : GradientTransformation P S1)
    (t2 : GradientTransformation P S2) : GradientTransformation P (S1 × S2) :=
  ⟨fun g s p =>
    let r1 := t1.update g s.1 p
    let r2 := t2.update r1.1 s.2 p
    (r2.1, (r1.2, r2.2))⟩

/-- `optax.clip_by_global_norm(max_norm)` as a stateless
transformation. -/
noncomputable def clip_by_global_norm {ι : Type} [Fintype ι] (max_norm : ℝ) :
    GradientTransformation (ι → ℝ) Unit :=
  ⟨fun g s _ => (clip_by_global_norm_update max_norm g, s)⟩

/-- `optax.scale_by_adam(b2=beta2)` (first-moment decay `b1` fixed at its
0.9 default, `eps` at its 1e-8 default in the callers). -/
noncomputable def scale_by_adam {ι : Type} (b1 b2 eps : ℝ) :
    GradientTransformation (ι → ℝ) (ScaleByAdamState ι) :=
  ⟨fun g st _ => scale_by_adam_update b1 b2 eps g st⟩

/-- `optax.add_decayed_weights(weight_decay)`: adds `wd * params` to the
incoming updates (decoupled weight decay on the update, not on the raw
gradient). -/
def add_decayed_weights {ι : Type} (wd : ℝ) :
    GradientTransformation (ι → ℝ) Unit :=
  ⟨fun g s p => (fun i => g i + wd * p i, s)⟩

/-- State of optax `scale_by_schedule`: its own step count. -/
structure ScaleByScheduleState where
  count : ℕ
deriving DecidableEq, Repr

/-- `optax.scale_by_schedule(step_size_fn)`: multiply by the schedule
value at the pre-increment count. -/
def scale_by_schedule {ι : Type} (step_size_fn : ℕ → ℝ) :
    GradientTransformation (ι → ℝ) ScaleByScheduleState :=
  ⟨fun g st _ =>
    (fun i => step_size_fn st.count * g i, ⟨safe_int32_increment st.count⟩)⟩

/-- `optax.scale(c)`. -/
def optax_scale {ι : Type} (c : ℝ) : GradientTransformation (ι → ℝ) Unit :=
  ⟨fun g s _ => (fun i => c * g i, s)⟩

/-- The optimizer of src/src/train.py:
`optax.chain(clip_by_global_norm(1.0), scale_by_adam(b2=beta2),
add_decayed_weights(weight_decay), scale_by_schedule(scheduler),
scale(-1))`. -/
noncomputable def optimizer_src {ι : Type} [Fintype ι] (b2 wd : ℝ)
    (sched : ℕ → ℝ) :
    GradientTransformation (ι → ℝ)
      (Unit × (ScaleByAdamState ι × (Unit × (ScaleByScheduleState × Unit)))) :=
  optax_chain2 (clip_by_global_norm 1)
    (optax_chain2 (scale_by_adam 0.9 b2 (1 / 100000000))
      (optax_chain2 (add_decayed_weights wd)
        (optax_chain2 (scale_by_schedule sched) (optax_scale (-1)))))

/-- The optimizer of the root-level train.py:
`optax.chain(scale_by_adam(b2=beta2), add_decayed_weights(weight_decay),
scale_by_schedule(scheduler), scale(-1))` — no clipping stage. -/
noncomputable def optimizer_root {ι : Type} [Fintype ι] (b2 wd : ℝ)
    (sched : ℕ → ℝ) :
    GradientTransformation (ι → ℝ)
      (ScaleByAdamState ι × (Unit × (ScaleByScheduleState × Unit))) :=
  optax_chain2 (scale_by_adam 0.9 b2 (1 / 100000000))
    (optax_chain2 (add_decayed_weights wd)
      (optax_chain2 (scale_by_schedule sched) (optax_scale (-1))))

/-- The claim's update pipeline, written from the spec's words: (a)
global-norm clipping to the fixed threshold 1, (b) adam moments with
fixed first-moment decay 0.9 and configurable `b2`, (c) decoupled weight
decay added to the update, (d) scaling by the schedule value at the
current iteration, (e) sign flip. -/
noncomputable def spec_update_pipeline {ι : Type} [Fintype ι] (b2 wd : ℝ)
    (sched : ℕ → ℝ) (g : ι → ℝ) (adam_st : ScaleByAdamState ι)
    (sched_count : ℕ) (p : ι → ℝ) : ι → ℝ :=
  let g1 := clip_by_global_norm_update 1 g
  let g2 := (scale_by_adam_update 0.9 b2 (1 / 100000000) g1 adam_st).1
  let g3 := fun i => g2 i + wd * p i
  let g4 := fun i => sched sched_count * g3 i
  fun i => -1 * g4 i

/-- The claim's pipeline without the clipping stage, (b)-(e) only. -/
noncomputable def spec_update_pipeline_noclip {ι : Type} (b2 wd : ℝ)
    (sched : ℕ → ℝ) (g : ι → ℝ) (adam_st : ScaleByAdamState ι)
    (sched_count : ℕ) (p : ι → ℝ) : ι → ℝ :=
  let g2 := (scale_by_adam_update 0.9 b2 (1 / 100000000) g adam_st).1
  let g3 := fun i => g2 i + wd * p i
  let g4 := fun i => sched sched_count * g3 i
  fun i => -1 * g4 i

/-- The claim as stated over both training scripts: every optimizer
update equals the five-stage pipeline including clipping. -/
def claim_every_update_clips (ι : Type) [Fintype ι] : Prop :=
  ∀ (b2 wd : ℝ) (sched : ℕ → ℝ) (g p : ι → ℝ)
    (st1 : Unit × (ScaleByAdamState ι × (Unit × (ScaleByScheduleState × Unit))))
    (st2 : ScaleByAdamState ι × (Unit × (ScaleByScheduleState × Unit))),
    ((optimizer_src b2 wd sched).update g st1 p).1 =
      spec_update_pipeline b2 wd sched g st1.2.1 st1.2.2.2.1.count p ∧
    ((optimizer_root b2 wd sched).update g st2 p).1 =
      spec_update_pipeline b2 wd sched g st2.1 st2.2.2.1.count p

/-- C9 counterexample: the claim covers both training scripts, but the
root-level train.py optimizer chain has no `clip_by_global_norm` stage;
at a gradient of global norm 3 (above the threshold 1) its update
differs from the claimed five-stage pipeline. -/
theorem optimizer_root_omits_clipping : ¬ claim_every_update_clips (Fin 1) := by
  intro h
  have h2 := (h 0 0 (fun _ => 1) (fun _ => 3) (fun _ => 0)
    ((), (⟨0, fun _ => 0, fun _ => 0⟩, ((), (⟨0⟩, ()))))
    (⟨0, fun _ => 0, fun _ => 0⟩, ((), (⟨0⟩, ())))).2
  have h0 := congrFun h2 0
  have hclip : clip_by_global_norm_update 1 (fun _ : Fin 1 => (3:ℝ)) =
      fun _ => 1 := by
    funext i
    have hnorm : global_norm (fun _ : Fin 1 => (3:ℝ)) = 3 := by
      unfold global_norm
      rw [Fin.sum_univ_one, show ((3:ℝ)^2) = 3^2 from rfl,
        Real.sqrt_sq (by norm_num : (0:ℝ) ≤ 3)]
    unfold clip_by_global_norm_update
    rw [hnorm]
    norm_num
  simp only [optimizer_root, optax_chain2, scale_by_adam, add_decayed_weights,
    scale_by_schedule, optax_scale, spec_update_pipeline, hclip,
    scale_by_adam_update, safe_int32_increment] at h0
  norm_num at h0
  rw [show ((9:ℝ)) = 3^2 by norm_num,
    Real.sqrt_sq (by norm_num : (0:ℝ) ≤ 3)] at h0
  norm_num at h0

/-- C9 amended: the optimizer of src/src/train.py applies, in this fixed
order, (a) global-norm clipping to the fixed threshold 1.0, (b) the adam
moment update with fixed first-moment decay 0.9 and configurable `b2`,
(c) decoupled weight decay added to the update (not to the gradient),
(d) scaling by the schedule value at the current iteration, (e) a sign
flip; the root-level train.py optimizer applies (b)-(e) in the same
order but omits (a).  Both per-transform counters advance by one
(saturating) increment per update. -/
theorem optimizer_chain_order {ι : Type} [Fintype ι] (b2 wd : ℝ)
    (sched : ℕ → ℝ) (g p : ι → ℝ)
    (st1 : Unit × (ScaleByAdamState ι × (Unit × (ScaleByScheduleState × Unit))))
    (st2 : ScaleByAdamState ι × (Unit × (ScaleByScheduleState × Unit))) :
    ((optimizer_src b2 wd sched).update g st1 p).1 =
      spec_update_pipeline b2 wd sched g st1.2.1 st1.2.2.2.1.count p ∧
    ((optimizer_root b2 wd sched).update g st2 p).1 =
      spec_update_pipeline_noclip b2 wd sched g st2.1 st2.2.2.1.count p ∧
    (((optimizer_src b2 wd sched).update g st1 p).2).2.1.count =
      safe_int32_increment st1.2.1.count ∧
    (((optimizer_src b2 wd sched).update g st1 p).2).2.2.2.1.count =
      safe_int32_increment st1.2.2.2.1.count ∧
    (((optimizer_root b2 wd sched).update g st2 p).2).1.count =
      safe_int32_increment st2.1.count :=
  ⟨rfl, rfl, rfl, rfl, rfl⟩
